import Mathlib

/-!
Shallow embedding of `src/osmnx/elevation.py` (module `osmnx.elevation`).

Python floats are modelled as rationals, so decimal rounding and fixed-point
formatting are exact.  External effects are made explicit: the HTTP transport
is an oracle `String → Option HttpResponse` (`none` models `requests.get`
raising), the response cache is an association list threaded through the
computation, and `time.sleep` / `requests.get` are recorded as events in a
trace.  Python exceptions are modelled with `Except` / an error component.
-/

/-- Python exceptions that the embedded code can raise. -/
inductive Err
  | keyError (key : String)
  | indexError
  | nameError (var : String)
  | zeroDivisionError
  | assertionError
  | typeError
  | cardinalityMismatch (requested received : Nat)
  | nodeCardinalityMismatch (nodes received : Nat)
  deriving DecidableEq

/-- Observable side effects of the batch fetcher: `time.sleep(pause_duration)`
and `requests.get(url)`. -/
inductive Event
  | sleep (duration : ℚ)
  | netGet (url : String)
  deriving DecidableEq

/-- One entry of the elevation API response's `results` list (its
`elevation` field, line 101). -/
structure ElevationResult where
  elevation : ℚ
  deriving DecidableEq

/-- A parsed JSON response body: an object with a `results` list (line 92). -/
structure ResponseJson where
  results : List ElevationResult
  deriving DecidableEq

/-- An HTTP response object as used by the source: `status_code`, `reason`
(line 89) and the result of `.json()` (line 85); `body = none` models
`response.json()` raising a parse exception. -/
structure HttpResponse where
  status_code : Int
  reason : String
  body : Option ResponseJson
  deriving DecidableEq

/-- One row of the input DataFrame: a latitude/longitude pair. -/
structure LatLng where
  latitude : ℚ
  longitude : ℚ
  deriving DecidableEq

/-- Floor of a rational number, via flooring integer division. -/
def ratFloor (q : ℚ) : Int :=
  q.num.fdiv (q.den : Int)

/-- Round to the nearest integer with ties to even: the rounding used by
Python's `round` and by `str.format`'s fixed-point presentation on exact
values. -/
def roundHalfToEven (q : ℚ) : Int :=
  let f := ratFloor q
  let r := q - (f : ℚ)
  if r < 1 / 2 then f
  else if 1 / 2 < r then f + 1
  else if f % 2 = 0 then f
  else f + 1

/-- Powers of ten as rationals (kept as a plain recursion so that closed
instances reduce in the kernel). -/
def pow10 : Nat → ℚ
  | 0 => 1
  | n + 1 => 10 * pow10 n

/-- Python's `round(x, ndigits)` on exact values: scale, round half to even,
unscale.  Used at lines 160 (`round(3)`) and 192 (`round(..., 4)`). -/
def pythonRound (ndigits : Nat) (q : ℚ) : ℚ :=
  (roundHalfToEven (q * pow10 ndigits) : ℚ) / pow10 ndigits

/-- Pad a digit string with leading zeros up to the given width. -/
def padZeros (width : Nat) (s : String) : String :=
  String.mk (List.replicate (width - s.length) '0') ++ s

/-- Python fixed-point formatting of an exact value with `places` digits
after the decimal point, as in the format string of line 68. -/
def formatFixed (places : Nat) (q : ℚ) : String :=
  let scaled := roundHalfToEven (q * pow10 places)
  let sign := if scaled < 0 ∨ (scaled = 0 ∧ q < 0) then "-" else ""
  let mag := scaled.natAbs
  let ipart := Nat.repr (mag / 10 ^ places)
  if places = 0 then sign ++ ipart
  else sign ++ ipart ++ "." ++ padZeros places (Nat.repr (mag % 10 ^ places))

/-- Line 68: the per-pair format string — latitude then longitude, each with
`decimal_places_to_round` digits, separated by a comma. -/
def latlngPairFormat (places : Nat) (p : LatLng) : String :=
  formatFixed places p.latitude ++ "," ++ formatFixed places p.longitude

/-- Line 72: the pipe-joined `locations` string built from one chunk. -/
def locationsOf (places : Nat) (chunk : List LatLng) : String :=
  String.intercalate "|" (chunk.map (latlngPairFormat places))

/-- One segment of a Python format string: literal text, an auto-numbered
positional field, or a named field.  The two URL templates of the source
use only these shapes. -/
inductive Seg
  | lit (s : String)
  | auto
  | named (key : String)
  deriving DecidableEq

/-- Python `str.format` restricted to the field shapes occurring in the URL
templates: auto-numbered fields consume positional arguments in order,
raising IndexError when they run out, and named fields are looked up among
the keyword arguments, raising KeyError when absent; surplus arguments are
ignored. -/
def formatTemplate : List Seg → List String → Nat → List (String × String) → Except Err String
  | [], _, _, _ => .ok ""
  | .lit t :: rest, args, i, kwargs =>
    match formatTemplate rest args i kwargs with
    | .ok r => .ok (t ++ r)
    | .error e => .error e
  | .auto :: rest, args, i, kwargs =>
    match args[i]? with
    | none => .error .indexError
    | some a =>
      match formatTemplate rest args (i + 1) kwargs with
      | .ok r => .ok (a ++ r)
      | .error e => .error e
  | .named k :: rest, args, i, kwargs =>
    match List.lookup k kwargs with
    | none => .error (.keyError k)
    | some v =>
      match formatTemplate rest args i kwargs with
      | .ok r => .ok (v ++ r)
      | .error e => .error e

/-- Parameters of `fetch_elevations_for_latitude_longitude_pairs`
(lines 21-28).  Source defaults: 5 decimal places, 350 locations per batch,
pause 0.02, the Google elevation URL template.  The `proxies` argument only
parametrises the HTTP transport and is absorbed into the network oracle. -/
structure FetchParams where
  decimal_places_to_round : Nat
  max_locations_per_batch : Nat
  pause_duration : ℚ
  url_template : List Seg
  url_template_kwargs : List (String × String)

/-- Line 26: the default `url_template` of
`fetch_elevations_for_latitude_longitude_pairs`.  Its two replacement fields
are the named fields `locations` and `api_key`. -/
def defaultUrlTemplate : List Seg :=
  [ .lit "https://maps.googleapis.com/maps/api/elevation/json?locations=",
    .named "locations",
    .lit "&key=",
    .named "api_key" ]

/-- Line 107: the default `url_template` of `add_node_elevations`.  Its two
replacement fields are both auto-numbered positional fields. -/
def nodeUrlTemplate : List Seg :=
  [ .lit "https://maps.googleapis.com/maps/api/elevation/json?locations=",
    .auto,
    .lit "&key=",
    .auto ]

/-- Line 73: `url = url_template.format(locations, **url_template_kwargs)` —
note that the `locations` string is passed positionally, as the sole
positional argument. -/
def buildUrl (P : FetchParams) (chunk : List LatLng) : Except Err String :=
  formatTemplate P.url_template [locationsOf P.decimal_places_to_round chunk] 0
    P.url_template_kwargs

/-- Fuel-indexed worker for `chunks`; the fuel bounds the number of batches
and is instantiated with the list length. -/
def chunksGo {α : Type} (B : Nat) : Nat → List α → List (List α)
  | _, [] => []
  | 0, _ :: _ => []
  | n + 1, a :: l => (a :: l).take B :: chunksGo B n (l.drop (B - 1))

/-- Lines 70-71: `for i in range(0, len(pairs), B): chunk = pairs.iloc[i:i+B]`
— the consecutive batches of size `B`.  For `B = 0` (where Python raises
before reaching the loop) it returns the empty list. -/
def chunks {α : Type} (B : Nat) (l : List α) : List (List α) :=
  if B = 0 then [] else chunksGo B l.length l

/-- The loop-carried state of the batch loop (lines 69-92): the accumulated
`results` list, the cache, the Python locals `response` and `response_json`
(unbound before their first assignment, persisting across iterations), and
the trace of sleep/network events. -/
structure LoopState where
  results : List ElevationResult
  cache : List (String × ResponseJson)
  response : Option HttpResponse
  response_json : Option ResponseJson
  trace : List Event
  deriving DecidableEq

/-- The state at loop entry (line 69: `results = []`): the locals `response`
and `response_json` are unbound and the trace is empty. -/
def initLoopState (cache0 : List (String × ResponseJson)) : LoopState :=
  ⟨[], cache0, none, none, []⟩

/-- Line 92: `results.extend(response_json['results'])` — a NameError when
`response_json` was never bound (i.e. the very first batch already failed). -/
def extendResults (s : LoopState) : LoopState × Option Err :=
  match s.response_json with
  | none => (s, some (.nameError "response_json"))
  | some rj => ({ s with results := s.results ++ rj.results }, none)

/-- Lines 71-92: one iteration of the batch loop.  Build the URL (line 73,
outside the try block), consult the cache (lines 76-78); on a miss, sleep and
issue the request (lines 83-84); a transport failure is caught, but the
handler's second log line (line 89) reads `response.status_code`, raising a
NameError when `response` was never bound; a parse failure (line 85) is
caught with `response` bound.  In every surviving case execution falls
through to `results.extend(response_json['results'])` (line 92), which reads
whatever `response_json` currently holds. -/
def processBatch (P : FetchParams) (net : String → Option HttpResponse)
    (s : LoopState) (chunk : List LatLng) : LoopState × Option Err :=
  match buildUrl P chunk with
  | .error e => (s, some e)
  | .ok url =>
    match List.lookup url s.cache with
    | some rj => extendResults { s with response_json := some rj }
    | none =>
      let s1 := { s with trace := s.trace ++ [Event.sleep P.pause_duration, Event.netGet url] }
      match net url with
      | none =>
        match s1.response with
        | none => (s1, some (.nameError "response"))
        | some _ => extendResults s1
      | some resp =>
        match resp.body with
        | none => extendResults { s1 with response := some resp }
        | some rj =>
          extendResults { s1 with response := some resp,
                                  response_json := some rj,
                                  cache := (url, rj) :: s1.cache }

/-- Lines 70-92: the batch loop, stopping at the first uncaught exception. -/
def runBatches (P : FetchParams) (net : String → Option HttpResponse) :
    List (List LatLng) → LoopState → LoopState × Option Err
  | [], s => (s, none)
  | c :: cs, s =>
    match processBatch P net s c with
    | (s1, none) => runBatches P net cs s1
    | (s1, some e) => (s1, some e)

/-- Lines 21-102: `fetch_elevations_for_latitude_longitude_pairs`.  Returns
the result (the input pairs augmented positionally with one elevation each,
line 101, or the exception), together with the final cache and the event
trace.  `max_locations_per_batch = 0` raises ZeroDivisionError at line 65's
`math.ceil(len(pairs) / B)` before the loop is reached. -/
def fetch_elevations_for_latitude_longitude_pairs (P : FetchParams)
    (net : String → Option HttpResponse) (pairs : List LatLng)
    (cache0 : List (String × ResponseJson)) :
    Except Err (List (LatLng × ℚ)) × List (String × ResponseJson) × List Event :=
  if P.max_locations_per_batch = 0 then (.error .zeroDivisionError, cache0, [])
  else
    match runBatches P net (chunks P.max_locations_per_batch pairs) (initLoopState cache0) with
    | (s, some e) => (.error e, s.cache, s.trace)
    | (s, none) =>
      if s.results.length = pairs.length then
        (.ok (pairs.zip (s.results.map ElevationResult.elevation)), s.cache, s.trace)
      else
        (.error (.cardinalityMismatch pairs.length s.results.length), s.cache, s.trace)

/-- The parsed response a given URL resolves to against an initial cache and
the network oracle: the cached value on a hit, otherwise the successfully
fetched and parsed body, and `none` when the transport or the parse fails. -/
def effResp (cache0 : List (String × ResponseJson))
    (net : String → Option HttpResponse) (url : String) : Option ResponseJson :=
  match List.lookup url cache0 with
  | some rj => some rj
  | none =>
    match net url with
    | some resp => resp.body
    | none => none

/-- The parsed response a given chunk resolves to: the response of its
request URL, or `none` when URL formatting fails. -/
def chunkResp (P : FetchParams) (cache0 : List (String × ResponseJson))
    (net : String → Option HttpResponse) (chunk : List LatLng) : Option ResponseJson :=
  match buildUrl P chunk with
  | .ok url => effResp cache0 net url
  | .error _ => none

/-- Invariant tying an intermediate cache to the initial cache and the
network oracle: the initial cache is contained in it, and every entry of it
is the response its URL resolves to. -/
def cacheFaithful (cache0 : List (String × ResponseJson))
    (net : String → Option HttpResponse) (c : List (String × ResponseJson)) : Prop :=
  (∀ u v, List.lookup u cache0 = some v → List.lookup u c = some v) ∧
  (∀ u v, List.lookup u c = some v → effResp cache0 net u = some v)

/-- The response a chunk resolves to, with an empty default outside the
success path. -/
def chunkRespD (P : FetchParams) (cache0 : List (String × ResponseJson))
    (net : String → Option HttpResponse) (chunk : List LatLng) : ResponseJson :=
  (chunkResp P cache0 net chunk).getD ⟨[]⟩

/-- A graph node key.  networkx accepts arbitrary hashable keys; integer and
string keys suffice to expose the dtype assertions of lines 140-142. -/
inductive NodeId
  | int (n : Int)
  | str (s : String)
  deriving DecidableEq

/-- Whether a node key is an integer. -/
def NodeId.isInt : NodeId → Bool
  | .int _ => true
  | .str _ => false

/-- A node or edge attribute value: a number (Python float/int, modelled
exactly) or a string. -/
inductive AttrVal
  | num (q : ℚ)
  | str (s : String)
  deriving DecidableEq

/-- Whether an attribute value is numeric. -/
def AttrVal.isNum : AttrVal → Bool
  | .num _ => true
  | .str _ => false

/-- A networkx attribute dictionary. -/
abbrev AttrDict := List (String × AttrVal)

/-- A networkx multidigraph as consumed by this module: nodes with attribute
dictionaries in iteration order, and directed edges `(u, v, data)` in
iteration order (`keys=False`, line 188). -/
structure Graph where
  nodes : List (NodeId × AttrDict)
  edges : List (NodeId × NodeId × AttrDict)
  deriving DecidableEq

/-- Python dictionary assignment `d[k] = v`: replace the binding in place if
the key is present, else append it. -/
def setAttr : AttrDict → String → AttrVal → AttrDict
  | [], k, v => [(k, v)]
  | (k1, v1) :: rest, k, v =>
    if k1 = k then (k, v) :: rest else (k1, v1) :: setAttr rest k v

/-- `G.nodes[n][key]` (line 189): KeyError when the node or the attribute is
absent. -/
def nodeAttr (G : Graph) (n : NodeId) (key : String) : Except Err AttrVal :=
  match List.lookup n G.nodes with
  | none => .error (.keyError "node")
  | some d =>
    match List.lookup key d with
    | none => .error (.keyError key)
    | some v => .ok v

/-- Python subtraction of two attribute values: numbers subtract, anything
else raises TypeError. -/
def attrSub (a b : AttrVal) : Except Err ℚ :=
  match a, b with
  | .num x, .num y => .ok (x - y)
  | _, _ => .error .typeError

/-- Lines 193-195: write `grade` (and `grade_abs` when `add_absolute`) into
an edge's attribute dictionary. -/
def writeGrade (add_absolute : Bool) (d : AttrDict) (grade : ℚ) : AttrDict :=
  let d1 := setAttr d "grade" (.num grade)
  if add_absolute then setAttr d1 "grade_abs" (.num |grade|) else d1

/-- Total versions of the per-edge reads, used to express the success-path
behaviour: the elevation attribute of a node and the `length` attribute of an
edge, defaulting to 0 outside the success path. -/
def elevD (G : Graph) (n : NodeId) : ℚ :=
  match nodeAttr G n "elevation" with
  | .ok (.num q) => q
  | _ => 0

/-- The numeric `length` attribute of an edge data dictionary, defaulting to
0 outside the success path. -/
def lenD (d : AttrDict) : ℚ :=
  match List.lookup "length" d with
  | some (.num q) => q
  | _ => 0

/-- Lines 188-195: the body of the edge loop of `add_edge_grades` for one
edge `(u, v, data)`: read the endpoint elevations (destination first, as in
line 189), subtract, divide by `data['length']` (ZeroDivisionError when the
length is zero), round to 4 places, and write the attributes. -/
def gradeOneEdge (G : Graph) (add_absolute : Bool) :
    NodeId × NodeId × AttrDict → Except Err (NodeId × NodeId × AttrDict)
  | (u, v, data) =>
    match nodeAttr G v "elevation" with
    | .error e => .error e
    | .ok ev =>
      match nodeAttr G u "elevation" with
      | .error e => .error e
      | .ok eu =>
        match attrSub ev eu with
        | .error e => .error e
        | .ok elevation_change =>
          match List.lookup "length" data with
          | none => .error (.keyError "length")
          | some (.str _) => .error .typeError
          | some (.num len) =>
            if len = 0 then .error .zeroDivisionError
            else .ok (u, v, writeGrade add_absolute data (pythonRound 4 (elevation_change / len)))

/-- Map a fallible function over a list, stopping at the first exception, as
a Python for-loop does. -/
def mapExceptList {α β : Type} (f : α → Except Err β) : List α → Except Err (List β)
  | [] => .ok []
  | a :: l =>
    match f a with
    | .error e => .error e
    | .ok b =>
      match mapExceptList f l with
      | .error e => .error e
      | .ok bs => .ok (b :: bs)

/-- Lines 169-198: `add_edge_grades` — for each directed edge compute the
grade from the endpoint elevations and the edge length and write it (and
optionally its absolute value) onto the edge.  The embedding returns the
whole updated graph; an exception on some edge aborts the operation. -/
def add_edge_grades (G : Graph) (add_absolute : Bool) : Except Err Graph :=
  match mapExceptList (gradeOneEdge G add_absolute) G.edges with
  | .error e => .error e
  | .ok es => .ok ⟨G.nodes, es⟩

/-- The success-path result of `gradeOneEdge`. -/
def gradedEdge (G : Graph) (add_absolute : Bool) (p : NodeId × NodeId × AttrDict) :
    NodeId × NodeId × AttrDict :=
  (p.1, p.2.1,
    writeGrade add_absolute p.2.2 (pythonRound 4 ((elevD G p.2.1 - elevD G p.1) / lenD p.2.2)))

/-- The per-edge success precondition of `add_edge_grades`: both endpoint
elevations are present and numeric, and the edge has a nonzero numeric
`length`. -/
def perEdgeOk (G : Graph) (p : NodeId × NodeId × AttrDict) : Prop :=
  ∃ ev eu len, nodeAttr G p.2.1 "elevation" = .ok (.num ev) ∧
    nodeAttr G p.1 "elevation" = .ok (.num eu) ∧
    List.lookup "length" p.2.2 = some (.num len) ∧ len ≠ 0

/-- Line 140: pandas gives the `node_id` column dtype `int64` exactly when
the column is nonempty and every key is an integer (string keys, mixed keys
and the empty frame give dtype `object`). -/
def dtypeIsInt64 (ids : List NodeId) : Bool :=
  !ids.isEmpty && ids.all NodeId.isInt

/-- Lines 141-142: pandas gives a coordinate column dtype `float64` exactly
when the column is nonempty and every value is numeric. -/
def dtypeIsFloat64 (vals : List AttrVal) : Bool :=
  !vals.isEmpty && vals.all AttrVal.isNum

/-- The numeric value of an attribute, defaulting to 0 (used only after the
float64 dtype assertion has guaranteed numeric values). -/
def numValD : AttrVal → ℚ
  | .num q => q
  | .str _ => 0

/-- Lines 138-143: build the `(node_id, latitude, longitude)` table from
`(node, data['y'], data['x'])` for every node (KeyError when a coordinate is
missing), then assert the three column dtypes. -/
def buildCoordTable (G : Graph) : Except Err (List (NodeId × ℚ × ℚ)) :=
  match mapExceptList (fun p =>
      match List.lookup "y" p.2 with
      | none => .error (.keyError "y")
      | some yv =>
        match List.lookup "x" p.2 with
        | none => .error (.keyError "x")
        | some xv => .ok (p.1, yv, xv)) G.nodes with
  | .error e => .error e
  | .ok triples =>
    if !dtypeIsInt64 (triples.map Prod.fst) then .error .assertionError
    else if !dtypeIsFloat64 (triples.map (fun t => t.2.1)) then .error .assertionError
    else if !dtypeIsFloat64 (triples.map (fun t => t.2.2)) then .error .assertionError
    else .ok (triples.map (fun t => (t.1, numValD t.2.1, numValD t.2.2)))

/-- Lookup in the dictionary built by Python's `dict(...)` from a key/value
sequence: the **last** binding of a key wins. -/
def pyDictLookup (l : List (NodeId × ℚ)) (k : NodeId) : Option ℚ :=
  List.lookup k l.reverse

/-- Lines 154-165: after the fetch — fail when the number of elevation
values differs from the number of nodes; otherwise round every elevation to
3 decimal places and write it under the attribute name `elevation` onto the
node with the matching identifier (`nx.set_node_attributes` with the
series' `to_dict()`, which leaves nodes without an entry untouched). -/
def attachElevations (G : Graph) (ids : List NodeId) (elevs : List ℚ) : Except Err Graph :=
  if elevs.length = G.nodes.length then
    .ok ⟨G.nodes.map (fun p =>
      match pyDictLookup (ids.zip (elevs.map (pythonRound 3))) p.1 with
      | some e => (p.1, setAttr p.2 "elevation" (.num e))
      | none => p), G.edges⟩
  else .error (.nodeCardinalityMismatch G.nodes.length elevs.length)

/-- Lines 104-165: `add_node_elevations` — build the coordinate table, fetch
elevations through the batch fetcher (5 decimal places, the positional
`nodeUrlTemplate`, `api_key` keyword), and attach the results to the nodes. -/
def add_node_elevations (G : Graph) (api_key : String)
    (max_locations_per_batch : Nat) (pause_duration : ℚ)
    (net : String → Option HttpResponse) (cache0 : List (String × ResponseJson)) :
    Except Err Graph :=
  match buildCoordTable G with
  | .error e => .error e
  | .ok table =>
    match (fetch_elevations_for_latitude_longitude_pairs
        ⟨5, max_locations_per_batch, pause_duration, nodeUrlTemplate,
          [("api_key", api_key)]⟩ net
        (table.map (fun t => ⟨t.2.1, t.2.2⟩)) cache0).1 with
    | .error e => .error e
    | .ok out => attachElevations G (table.map Prod.fst) (out.map Prod.snd)

/-- Concrete parameters for closed runs: 0 rounding places, batch size 1,
the default pause, a URL template that is just the positional `locations`
field, and no keyword arguments. -/
def wParams : FetchParams :=
  ⟨0, 1, 1 / 50, [Seg.auto], []⟩

/-- A network oracle answering the two batch URLs of `wPairs` with
one-entry responses (elevations 10 and 20). -/
def wNet : String → Option HttpResponse := fun u =>
  if u = "1,2" then some ⟨200, "OK", some ⟨[⟨10⟩]⟩⟩
  else if u = "3,4" then some ⟨200, "OK", some ⟨[⟨20⟩]⟩⟩
  else none

/-- A network oracle that answers the first batch URL with a one-entry
response (elevation 7) and fails (connection error) on everything else. -/
def wNetFail : String → Option HttpResponse := fun u =>
  if u = "1,2" then some ⟨200, "OK", some ⟨[⟨7⟩]⟩⟩
  else none

/-- Two concrete coordinate pairs, giving batch URLs `1,2` and `3,4` under
`wParams`. -/
def wPairs : List LatLng :=
  [⟨1, 2⟩, ⟨3, 4⟩]

/-- A concrete two-node graph with elevations 100 and 110, a forward and a
reverse edge of length 50, and extra node/edge attributes to exercise the
frame conditions. -/
def wGraph : Graph :=
  ⟨[(.int 1, [("elevation", .num 100), ("name", .str "a")]),
    (.int 2, [("elevation", .num 110)])],
   [(.int 1, .int 2, [("length", .num 50), ("osmid", .str "e12")]),
    (.int 2, .int 1, [("length", .num 50)])]⟩

/-- A concrete two-node graph with coordinates, the second node carrying a
prior elevation attribute. -/
def wGraphN : Graph :=
  ⟨[(.int 1, [("x", .num 1), ("y", .num 2)]),
    (.int 2, [("x", .num 3), ("y", .num 4), ("elevation", .num 1)])], []⟩

/-- Decidable equality for `Except`, for evaluating closed runs. -/
instance instDecEqExcept {e a : Type} [DecidableEq e] [DecidableEq a] :
    DecidableEq (Except e a) :=
  fun x y =>
    match x, y with
    | .ok u, .ok v => decidable_of_iff (u = v) (by constructor <;> intro h <;> simp_all)
    | .error u, .error v => decidable_of_iff (u = v) (by constructor <;> intro h <;> simp_all)
    | .ok _, .error _ => isFalse (by intro h; cases h)
    | .error _, .ok _ => isFalse (by intro h; cases h)

theorem chunksGo_nil {α : Type} (B n : Nat) : chunksGo B n ([] : List α) = [] := by
  cases n <;> rfl

theorem chunksGo_congr {α : Type} (B : Nat) :
    ∀ n n' (l : List α), l.length ≤ n → l.length ≤ n' → chunksGo B n l = chunksGo B n' l := by
  intro n
  induction n with
  | zero =>
    intro n' l h _
    have : l = [] := List.length_eq_zero.mp (Nat.le_zero.mp h)
    subst this
    rw [chunksGo_nil, chunksGo_nil]
  | succ m ih =>
    intro n' l h h'
    cases l with
    | nil => rw [chunksGo_nil, chunksGo_nil]
    | cons a t =>
      cases n' with
      | zero => simp at h'
      | succ m' =>
        show (a :: t).take B :: chunksGo B m (t.drop (B - 1))
            = (a :: t).take B :: chunksGo B m' (t.drop (B - 1))
        have hd : (t.drop (B - 1)).length ≤ t.length := by
          rw [List.length_drop]; omega
        have h1 : (t.drop (B - 1)).length ≤ m := by
          simp only [List.length_cons] at h; omega
        have h2 : (t.drop (B - 1)).length ≤ m' := by
          simp only [List.length_cons] at h'; omega
        rw [ih m' (t.drop (B - 1)) h1 h2]

theorem chunks_nil {α : Type} (B : Nat) : chunks B ([] : List α) = [] := by
  unfold chunks
  split
  · rfl
  · exact chunksGo_nil B 0

theorem chunks_cons {α : Type} (B : Nat) (hB : 0 < B) (a : α) (l : List α) :
    chunks B (a :: l) = (a :: l).take B :: chunks B ((a :: l).drop B) := by
  obtain ⟨Bm, rfl⟩ : ∃ Bm, B = Bm + 1 := ⟨B - 1, by omega⟩
  have hBne : ¬ Bm + 1 = 0 := by omega
  unfold chunks
  rw [if_neg hBne, if_neg hBne]
  show (a :: l).take (Bm + 1) :: chunksGo (Bm + 1) l.length (l.drop (Bm + 1 - 1))
      = (a :: l).take (Bm + 1)
        :: chunksGo (Bm + 1) ((a :: l).drop (Bm + 1)).length ((a :: l).drop (Bm + 1))
  have hdrop : (a :: l).drop (Bm + 1) = l.drop (Bm + 1 - 1) := by simp
  rw [hdrop]
  congr 1
  apply chunksGo_congr (Bm + 1)
  · rw [List.length_drop]; omega
  · exact Nat.le_refl _

theorem chunks_ne_nil {α : Type} (B : Nat) (hB : 0 < B) (a : α) (l : List α) :
    chunks B (a :: l) ≠ [] := by
  rw [chunks_cons B hB]
  exact List.cons_ne_nil _ _

theorem chunks_join_aux {α : Type} (B : Nat) (hB : 0 < B) :
    ∀ n (l : List α), l.length ≤ n → (chunks B l).flatten = l := by
  intro n
  induction n with
  | zero =>
    intro l h
    have : l = [] := List.length_eq_zero.mp (Nat.le_zero.mp h)
    subst this
    rw [chunks_nil]
    rfl
  | succ m ih =>
    intro l h
    cases l with
    | nil => rw [chunks_nil]; rfl
    | cons a t =>
      rw [chunks_cons B hB, List.flatten_cons]
      have hlen : ((a :: t).drop B).length ≤ m := by
        simp only [List.length_drop, List.length_cons]
        simp only [List.length_cons] at h
        omega
      rw [ih ((a :: t).drop B) hlen, List.take_append_drop]

theorem chunks_join {α : Type} (B : Nat) (hB : 0 < B) (l : List α) :
    (chunks B l).flatten = l :=
  chunks_join_aux B hB l.length l (Nat.le_refl _)

theorem chunks_length_aux {α : Type} (B : Nat) (hB : 0 < B) :
    ∀ n (l : List α), l.length ≤ n → (chunks B l).length = (l.length + B - 1) / B := by
  intro n
  induction n with
  | zero =>
    intro l h
    have : l = [] := List.length_eq_zero.mp (Nat.le_zero.mp h)
    subst this
    rw [chunks_nil]
    simp only [List.length_nil]
    rw [Nat.div_eq_of_lt (by omega)]
  | succ m ih =>
    intro l h
    cases l with
    | nil =>
      rw [chunks_nil]
      simp only [List.length_nil]
      rw [Nat.div_eq_of_lt (by omega)]
    | cons a t =>
      rw [chunks_cons B hB]
      have hlen : ((a :: t).drop B).length ≤ m := by
        simp only [List.length_drop, List.length_cons]
        simp only [List.length_cons] at h
        omega
      rw [List.length_cons, ih ((a :: t).drop B) hlen, List.length_drop]
      set N := (a :: t).length with hN
      have hN1 : 1 ≤ N := by rw [hN]; simp only [List.length_cons]; omega
      have e1 : N + B - 1 = (N - 1) + B := by omega
      rw [e1, Nat.add_div_right _ hB]
      by_cases hc : N ≤ B
      · have e2 : N - B = 0 := by omega
        rw [e2]
        rw [Nat.div_eq_of_lt (by omega), Nat.div_eq_of_lt (by omega)]
      · have e3 : N - B + B - 1 = (N - B - 1) + B := by omega
        rw [e3, Nat.add_div_right _ hB]
        have e4 : N - 1 = (N - B - 1) + B := by omega
        rw [e4, Nat.add_div_right _ hB]

theorem chunks_length {α : Type} (B : Nat) (hB : 0 < B) (l : List α) :
    (chunks B l).length = (l.length + B - 1) / B :=
  chunks_length_aux B hB l.length l (Nat.le_refl _)

theorem chunks_le_aux {α : Type} (B : Nat) (hB : 0 < B) :
    ∀ n (l : List α), l.length ≤ n → ∀ c ∈ chunks B l, c.length ≤ B := by
  intro n
  induction n with
  | zero =>
    intro l h
    have : l = [] := List.length_eq_zero.mp (Nat.le_zero.mp h)
    subst this
    rw [chunks_nil]
    intro c hc
    cases hc
  | succ m ih =>
    intro l h c hc
    cases l with
    | nil => rw [chunks_nil] at hc; cases hc
    | cons a t =>
      rw [chunks_cons B hB] at hc
      rcases List.mem_cons.mp hc with hc | hc
      · subst hc
        rw [List.length_take]
        omega
      · have hlen : ((a :: t).drop B).length ≤ m := by
          simp only [List.length_drop, List.length_cons]
          simp only [List.length_cons] at h
          omega
        exact ih ((a :: t).drop B) hlen c hc

theorem chunks_le {α : Type} (B : Nat) (hB : 0 < B) (l : List α) :
    ∀ c ∈ chunks B l, c.length ≤ B :=
  chunks_le_aux B hB l.length l (Nat.le_refl _)

theorem chunks_dropLast_aux {α : Type} (B : Nat) (hB : 0 < B) :
    ∀ n (l : List α), l.length ≤ n → ∀ c ∈ (chunks B l).dropLast, c.length = B := by
  intro n
  induction n with
  | zero =>
    intro l h
    have : l = [] := List.length_eq_zero.mp (Nat.le_zero.mp h)
    subst this
    rw [chunks_nil]
    intro c hc
    cases hc
  | succ m ih =>
    intro l h c hc
    cases l with
    | nil => rw [chunks_nil] at hc; cases hc
    | cons a t =>
      rw [chunks_cons B hB] at hc
      by_cases hd : (a :: t).drop B = []
      · rw [hd, chunks_nil] at hc
        cases hc
      · obtain ⟨b, u, hbu⟩ : ∃ b u, (a :: t).drop B = b :: u := by
          cases hdd : (a :: t).drop B with
          | nil => exact absurd hdd hd
          | cons b u => exact ⟨b, u, rfl⟩
        have hrest : chunks B ((a :: t).drop B) ≠ [] := by
          rw [hbu]; exact chunks_ne_nil B hB b u
        rw [List.dropLast_cons_of_ne_nil hrest] at hc
        rcases List.mem_cons.mp hc with hc | hc
        · subst hc
          rw [List.length_take]
          have : B < (a :: t).length := by
            by_contra hcon
            exact hd (List.drop_eq_nil_of_le (by omega))
          omega
        · have hlen : ((a :: t).drop B).length ≤ m := by
            simp only [List.length_drop, List.length_cons]
            simp only [List.length_cons] at h
            omega
          exact ih ((a :: t).drop B) hlen c hc

theorem chunks_dropLast {α : Type} (B : Nat) (hB : 0 < B) (l : List α) :
    ∀ c ∈ (chunks B l).dropLast, c.length = B :=
  chunks_dropLast_aux B hB l.length l (Nat.le_refl _)

theorem chunks_getLast_aux {α : Type} (B : Nat) (hB : 0 < B) :
    ∀ n (l : List α), l.length ≤ n → l ≠ [] →
      ∃ c, (chunks B l).getLast? = some c ∧
        c.length = (if l.length % B = 0 then B else l.length % B) := by
  intro n
  induction n with
  | zero =>
    intro l h hne
    exact absurd (List.length_eq_zero.mp (Nat.le_zero.mp h)) hne
  | succ m ih =>
    intro l h hne
    cases l with
    | nil => exact absurd rfl hne
    | cons a t =>
      rw [chunks_cons B hB]
      by_cases hd : (a :: t).drop B = []
      · have hNB : (a :: t).length ≤ B := by
          by_contra hcon
          have : (a :: t).drop B ≠ [] := by
            apply List.ne_nil_of_length_pos
            rw [List.length_drop]
            omega
          exact this hd
        rw [hd, chunks_nil]
        refine ⟨(a :: t).take B, rfl, ?_⟩
        rw [List.length_take]
        have hN1 : 1 ≤ (a :: t).length := by simp only [List.length_cons]; omega
        by_cases he : (a :: t).length = B
        · rw [he]
          simp
        · have hlt : (a :: t).length < B := by omega
          rw [if_neg (by rw [Nat.mod_eq_of_lt hlt]; omega), Nat.mod_eq_of_lt hlt]
          omega
      · have hlen : ((a :: t).drop B).length ≤ m := by
          simp only [List.length_drop, List.length_cons]
          simp only [List.length_cons] at h
          omega
        obtain ⟨c, hc1, hc2⟩ := ih ((a :: t).drop B) hlen hd
        have hrest : chunks B ((a :: t).drop B) ≠ [] := by
          obtain ⟨b, u, hbu⟩ : ∃ b u, (a :: t).drop B = b :: u := by
            cases hdd : (a :: t).drop B with
            | nil => exact absurd hdd hd
            | cons b u => exact ⟨b, u, rfl⟩
          rw [hbu]; exact chunks_ne_nil B hB b u
        refine ⟨c, ?_, ?_⟩
        · rw [List.getLast?_cons, hc1]
          rfl
        · rw [hc2, List.length_drop]
          have hBle : B ≤ (a :: t).length := by
            by_contra hcon
            exact hd (List.drop_eq_nil_of_le (by omega))
          rw [Nat.mod_eq_sub_mod hBle]

theorem chunks_getLast {α : Type} (B : Nat) (hB : 0 < B) (l : List α) (hne : l ≠ []) :
    ∃ c, (chunks B l).getLast? = some c ∧
      c.length = (if l.length % B = 0 then B else l.length % B) :=
  chunks_getLast_aux B hB l.length l (Nat.le_refl _) hne

theorem chunks_getElem_aux {α : Type} (B : Nat) (hB : 0 < B) :
    ∀ n (l : List α), l.length ≤ n →
      ∀ k c, k + 1 < (chunks B l).length → (chunks B l)[k]? = some c → c.length = B := by
  intro n
  induction n with
  | zero =>
    intro l h
    have : l = [] := List.length_eq_zero.mp (Nat.le_zero.mp h)
    subst this
    rw [chunks_nil]
    intro k c hk
    simp at hk
  | succ m ih =>
    intro l h k c hk hkc
    cases l with
    | nil => rw [chunks_nil] at hk; simp at hk
    | cons a t =>
      rw [chunks_cons B hB] at hk hkc
      cases k with
      | zero =>
        simp only [List.getElem?_cons_zero, Option.some.injEq] at hkc
        subst hkc
        simp only [List.length_cons] at hk
        have hrest : chunks B ((a :: t).drop B) ≠ [] := by
          intro hcon
          rw [hcon] at hk
          simp at hk
        have hd : (a :: t).drop B ≠ [] := by
          intro hcon
          rw [hcon, chunks_nil] at hrest
          exact hrest rfl
        have : B < (a :: t).length := by
          by_contra hcon
          exact hd (List.drop_eq_nil_of_le (by omega))
        rw [List.length_take]
        omega
      | succ k0 =>
        simp only [List.getElem?_cons_succ] at hkc
        simp only [List.length_cons] at hk
        have hlen : ((a :: t).drop B).length ≤ m := by
          simp only [List.length_drop, List.length_cons]
          simp only [List.length_cons] at h
          omega
        exact ih ((a :: t).drop B) hlen k0 c (by omega) hkc

theorem chunks_getElem_len {α : Type} (B : Nat) (hB : 0 < B) (l : List α) :
    ∀ k c, k + 1 < (chunks B l).length → (chunks B l)[k]? = some c → c.length = B :=
  chunks_getElem_aux B hB l.length l (Nat.le_refl _)

theorem flatten_getElem_chunked {α : Type} (B : Nat) (hB : 0 < B) :
    ∀ (L : List (List α)),
      (∀ k w, k + 1 < L.length → L[k]? = some w → w.length = B) →
      (∀ w ∈ L, w.length ≤ B) →
      ∀ j, j < L.flatten.length →
        ∃ w : List α, L[j / B]? = some w ∧ L.flatten[j]? = w[j % B]? := by
  intro L
  induction L with
  | nil =>
    intro _ _ j hj
    simp at hj
  | cons c0 L ih =>
    intro hlen hle j hj
    cases L with
    | nil =>
      have hj0 : j < c0.length := by simpa using hj
      have hle0 : c0.length ≤ B := hle c0 (List.mem_cons_self _ _)
      have hd : j / B = 0 := Nat.div_eq_of_lt (by omega)
      have hm : j % B = j := Nat.mod_eq_of_lt (by omega)
      refine ⟨c0, ?_, ?_⟩
      · rw [hd]; rfl
      · rw [hm]
        simp
    | cons c1 L1 =>
      have hc0 : c0.length = B := by
        apply hlen 0 c0
        · simp only [List.length_cons]; omega
        · rfl
      by_cases hjB : j < B
      · have hd : j / B = 0 := Nat.div_eq_of_lt hjB
        have hm : j % B = j := Nat.mod_eq_of_lt hjB
        refine ⟨c0, by rw [hd]; rfl, ?_⟩
        rw [hm]
        rw [List.flatten_cons, List.getElem?_append, if_pos (by omega)]
      · obtain ⟨j1, rfl⟩ : ∃ j1, j = B + j1 := ⟨j - B, by omega⟩
        have hj1 : j1 < (c1 :: L1).flatten.length := by
          rw [List.flatten_cons, List.length_append, hc0] at hj
          omega
        obtain ⟨c, hc1, hc2⟩ := ih
          (fun k w hk hkc =>
            hlen (k + 1) w (by simp only [List.length_cons] at hk ⊢; omega)
              (by simpa using hkc))
          (fun w hw => hle w (List.mem_cons_of_mem _ hw))
          j1 hj1
        have hd : (B + j1) / B = j1 / B + 1 := by
          rw [Nat.add_comm, Nat.add_div_right _ hB]
        have hm : (B + j1) % B = j1 % B := Nat.add_mod_left B j1
        refine ⟨c, ?_, ?_⟩
        · rw [hd]
          simpa using hc1
        · rw [hm, List.flatten_cons]
          rw [List.getElem?_append, if_neg (by omega), hc0]
          simpa using hc2

theorem zip_getElem_some {α β : Type} :
    ∀ (l : List α) (l2 : List β) (j : Nat) (x : α) (y : β),
      l[j]? = some x → l2[j]? = some y → (l.zip l2)[j]? = some (x, y) := by
  intro l
  induction l with
  | nil => intro l2 j x y hx; simp at hx
  | cons a t ih =>
    intro l2 j x y hx hy
    cases l2 with
    | nil => simp at hy
    | cons b u =>
      cases j with
      | zero =>
        simp only [List.getElem?_cons_zero, Option.some.injEq] at hx hy
        subst hx; subst hy
        simp [List.zip_cons_cons]
      | succ j0 =>
        simp only [List.getElem?_cons_succ] at hx hy
        simpa using ih u j0 x y hx hy

theorem lookup_cons_eq {β : Type} (k : String) (v : β) (l : List (String × β)) :
    List.lookup k ((k, v) :: l) = some v := by
  simp [List.lookup]

theorem lookup_cons_ne {β : Type} (k k1 : String) (v : β) (l : List (String × β))
    (h : k ≠ k1) : List.lookup k ((k1, v) :: l) = List.lookup k l := by
  simp [List.lookup, beq_false_of_ne h]

theorem lookup_of_mem_keys {α β : Type} [BEq α] [LawfulBEq α] :
    ∀ (l : List (α × β)) (k : α), k ∈ l.map Prod.fst → ∃ v, List.lookup k l = some v := by
  intro l
  induction l with
  | nil => intro k hk; simp at hk
  | cons p t ih =>
    intro k hk
    simp only [List.map_cons, List.mem_cons] at hk
    by_cases he : k = p.1
    · subst he
      exact ⟨p.2, by simp [List.lookup]⟩
    · have : k ∈ t.map Prod.fst := by
        rcases hk with hk | hk
        · exact absurd hk he
        · exact hk
      obtain ⟨v, hv⟩ := ih k this
      refine ⟨v, ?_⟩
      have hbeq : (k == p.1) = false := beq_false_of_ne he
      simp [List.lookup, hbeq, hv]

theorem lookup_setAttr (d : AttrDict) (k k2 : String) (v : AttrVal) :
    List.lookup k (setAttr d k2 v) = if k = k2 then some v else List.lookup k d := by
  induction d with
  | nil =>
    by_cases he : k = k2
    · subst he; simp [setAttr, List.lookup]
    · simp [setAttr, List.lookup, he, beq_false_of_ne he]
  | cons p t ih =>
    obtain ⟨k1, v1⟩ := p
    simp only [setAttr]
    by_cases h1 : k1 = k2
    · rw [if_pos h1]
      subst h1
      by_cases he : k = k1
      · subst he
        rw [lookup_cons_eq, if_pos rfl]
      · rw [lookup_cons_ne k k1 v t he, if_neg he, lookup_cons_ne k k1 v1 t he]
    · rw [if_neg h1]
      by_cases he : k = k1
      · subst he
        rw [lookup_cons_eq, lookup_cons_eq, if_neg h1]
      · rw [lookup_cons_ne k k1 v1 _ he, ih, lookup_cons_ne k k1 v1 t he]

theorem mapExceptList_ok_of {α β : Type} (f : α → Except Err β) (g : α → β) :
    ∀ (l : List α), (∀ a ∈ l, f a = .ok (g a)) → mapExceptList f l = .ok (l.map g) := by
  intro l
  induction l with
  | nil => intro _; rfl
  | cons a t ih =>
    intro h
    have ha := h a (List.mem_cons_self _ _)
    have ht := ih (fun x hx => h x (List.mem_cons_of_mem _ hx))
    simp only [mapExceptList, ha, ht, List.map_cons]

theorem processBatch_hit (P : FetchParams) (net : String → Option HttpResponse)
    (s : LoopState) (c : List LatLng) (url : String) (rj : ResponseJson)
    (hu : buildUrl P c = .ok url) (hc : List.lookup url s.cache = some rj) :
    processBatch P net s c
      = ({ s with response_json := some rj, results := s.results ++ rj.results }, none) := by
  simp [processBatch, hu, hc, extendResults]

theorem processBatch_miss_ok (P : FetchParams) (net : String → Option HttpResponse)
    (s : LoopState) (c : List LatLng) (url : String) (resp : HttpResponse)
    (rj : ResponseJson) (hu : buildUrl P c = .ok url)
    (hc : List.lookup url s.cache = none) (hn : net url = some resp)
    (hb : resp.body = some rj) :
    processBatch P net s c
      = ({ s with results := s.results ++ rj.results,
                  cache := (url, rj) :: s.cache,
                  response := some resp,
                  response_json := some rj,
                  trace := s.trace ++ [Event.sleep P.pause_duration, Event.netGet url] },
          none) := by
  simp [processBatch, hu, hc, hn, hb, extendResults]

theorem runBatches_spec (P : FetchParams) (net : String → Option HttpResponse)
    (cache0 : List (String × ResponseJson)) :
    ∀ (cs : List (List LatLng)) (s : LoopState),
      cacheFaithful cache0 net s.cache →
      (∀ c ∈ cs, (chunkResp P cache0 net c).isSome) →
      ∃ s1, runBatches P net cs s = (s1, none)
        ∧ s1.results = s.results
            ++ (cs.map (fun c => (chunkRespD P cache0 net c).results)).flatten
        ∧ cacheFaithful cache0 net s1.cache
        ∧ (∀ u v, List.lookup u s.cache = some v → List.lookup u s1.cache = some v)
        ∧ (∀ c ∈ cs, ∀ url, buildUrl P c = .ok url →
            List.lookup url s1.cache = some (chunkRespD P cache0 net c)) := by
  intro cs
  induction cs with
  | nil =>
    intro s hf _
    exact ⟨s, rfl, by simp, hf, fun u v h => h,
      fun c hc => absurd hc (List.not_mem_nil c)⟩
  | cons c cs ih =>
    intro s hf hres
    have hc0 := hres c (List.mem_cons_self _ _)
    obtain ⟨url, hu⟩ : ∃ url, buildUrl P c = .ok url := by
      cases hbu : buildUrl P c with
      | ok u => exact ⟨u, rfl⟩
      | error e =>
        unfold chunkResp at hc0
        rw [hbu] at hc0
        simp at hc0
    obtain ⟨rj, hrj⟩ : ∃ rj, effResp cache0 net url = some rj := by
      unfold chunkResp at hc0
      rw [hu] at hc0
      exact Option.isSome_iff_exists.mp hc0
    have hcrd : chunkRespD P cache0 net c = rj := by
      unfold chunkRespD chunkResp
      rw [hu]
      show (effResp cache0 net url).getD ⟨[]⟩ = rj
      rw [hrj]
      rfl
    have hres2 : ∀ x ∈ cs, (chunkResp P cache0 net x).isSome :=
      fun x hx => hres x (List.mem_cons_of_mem _ hx)
    cases hlk : List.lookup url s.cache with
    | some rj0 =>
      have h1 : effResp cache0 net url = some rj0 := hf.2 url rj0 hlk
      have h2 : rj0 = rj := by
        rw [h1] at hrj
        exact Option.some.inj hrj
      subst h2
      have hpb := processBatch_hit P net s c url rj0 hu hlk
      obtain ⟨s1, hrun, hresl, hf1, hmono, hurl⟩ :=
        ih { s with response_json := some rj0, results := s.results ++ rj0.results } hf hres2
      refine ⟨s1, ?_, ?_, hf1, ?_, ?_⟩
      · simp only [runBatches, hpb]
        exact hrun
      · rw [hresl]
        simp [hcrd, List.append_assoc]
      · intro u v hv
        exact hmono u v hv
      · intro x hx url2 hu2
        rcases List.mem_cons.mp hx with hx | hx
        · subst hx
          rw [hu] at hu2
          have he : url = url2 := by injection hu2
          subst he
          rw [hcrd]
          exact hmono url rj0 hlk
        · exact hurl x hx url2 hu2
    | none =>
      have hc0n : List.lookup url cache0 = none := by
        cases hq : List.lookup url cache0 with
        | none => rfl
        | some v =>
          have := hf.1 url v hq
          rw [hlk] at this
          cases this
      obtain ⟨resp, hn, hb⟩ : ∃ resp, net url = some resp ∧ resp.body = some rj := by
        unfold effResp at hrj
        rw [hc0n] at hrj
        cases hq : net url with
        | none => rw [hq] at hrj; cases hrj
        | some resp =>
          rw [hq] at hrj
          exact ⟨resp, rfl, hrj⟩
      have hpb := processBatch_miss_ok P net s c url resp rj hu hlk hn hb
      have hf2 : cacheFaithful cache0 net ((url, rj) :: s.cache) := by
        constructor
        · intro u v huv
          by_cases he : u = url
          · subst he
            rw [hc0n] at huv
            cases huv
          · rw [lookup_cons_ne u url rj s.cache he]
            exact hf.1 u v huv
        · intro u v huv
          by_cases he : u = url
          · subst he
            rw [lookup_cons_eq] at huv
            have hv : rj = v := Option.some.inj huv
            subst hv
            exact hrj
          · rw [lookup_cons_ne u url rj s.cache he] at huv
            exact hf.2 u v huv
      obtain ⟨s1, hrun, hresl, hf1, hmono, hurl⟩ :=
        ih { s with results := s.results ++ rj.results,
                    cache := (url, rj) :: s.cache,
                    response := some resp,
                    response_json := some rj,
                    trace := s.trace ++ [Event.sleep P.pause_duration, Event.netGet url] }
          hf2 hres2
      refine ⟨s1, ?_, ?_, hf1, ?_, ?_⟩
      · simp only [runBatches, hpb]
        exact hrun
      · rw [hresl]
        simp [hcrd, List.append_assoc]
      · intro u v hv
        apply hmono u v
        show List.lookup u ((url, rj) :: s.cache) = some v
        by_cases he : u = url
        · subst he
          rw [hlk] at hv
          cases hv
        · rw [lookup_cons_ne u url rj s.cache he]
          exact hv
      · intro x hx url2 hu2
        rcases List.mem_cons.mp hx with hx | hx
        · subst hx
          rw [hu] at hu2
          have he : url = url2 := by injection hu2
          subst he
          rw [hcrd]
          apply hmono url rj
          show List.lookup url ((url, rj) :: s.cache) = some rj
          exact lookup_cons_eq url rj s.cache
        · exact hurl x hx url2 hu2

theorem runBatches_hits (P : FetchParams) (net : String → Option HttpResponse)
    (cache0 : List (String × ResponseJson)) :
    ∀ (cs : List (List LatLng)) (s : LoopState),
      (∀ c ∈ cs, ∃ url, buildUrl P c = .ok url ∧
          List.lookup url s.cache = some (chunkRespD P cache0 net c)) →
      ∃ s1, runBatches P net cs s = (s1, none)
        ∧ s1.results = s.results
            ++ (cs.map (fun c => (chunkRespD P cache0 net c).results)).flatten
        ∧ s1.cache = s.cache ∧ s1.trace = s.trace := by
  intro cs
  induction cs with
  | nil =>
    intro s _
    exact ⟨s, rfl, by simp, rfl, rfl⟩
  | cons c cs ih =>
    intro s h
    obtain ⟨url, hu, hlk⟩ := h c (List.mem_cons_self _ _)
    have hpb := processBatch_hit P net s c url (chunkRespD P cache0 net c) hu hlk
    obtain ⟨s1, hrun, hresl, hcash, htr⟩ :=
      ih { s with response_json := some (chunkRespD P cache0 net c),
                  results := s.results ++ (chunkRespD P cache0 net c).results }
        (fun x hx => h x (List.mem_cons_of_mem _ hx))
    refine ⟨s1, ?_, ?_, hcash, htr⟩
    · simp only [runBatches, hpb]
      exact hrun
    · rw [hresl]
      simp [List.append_assoc]

theorem fetch_eq_of_run (P : FetchParams) (net : String → Option HttpResponse)
    (pairs : List LatLng) (cache0 : List (String × ResponseJson)) (s : LoopState)
    (hB : P.max_locations_per_batch ≠ 0)
    (hrun : runBatches P net (chunks P.max_locations_per_batch pairs) (initLoopState cache0)
      = (s, none)) :
    fetch_elevations_for_latitude_longitude_pairs P net pairs cache0
      = (if s.results.length = pairs.length
          then (.ok (pairs.zip (s.results.map ElevationResult.elevation)), s.cache, s.trace)
          else (.error (.cardinalityMismatch pairs.length s.results.length),
                s.cache, s.trace)) := by
  unfold fetch_elevations_for_latitude_longitude_pairs
  rw [if_neg hB, hrun]

/-- C1: once the batch loop has completed (accumulating `s.results`), the
fetch operation raises the cardinality-mismatch error exactly when the number
of accumulated elevation results differs from the number of requested pairs;
this is the only error it can raise at that point, and no partial result
accompanies it (the `Except.error` outcome carries no output sequence,
matching the source where the raise at line 96 precedes the attachment at
line 101); when the counts agree, the input sequence is returned augmented
positionally with exactly one elevation per pair. -/
theorem fetch_cardinality_spec (P : FetchParams) (net : String → Option HttpResponse)
    (pairs : List LatLng) (cache0 : List (String × ResponseJson)) (s : LoopState)
    (hB : P.max_locations_per_batch ≠ 0)
    (hrun : runBatches P net (chunks P.max_locations_per_batch pairs) (initLoopState cache0)
      = (s, none)) :
    ((fetch_elevations_for_latitude_longitude_pairs P net pairs cache0).1
        = .error (.cardinalityMismatch pairs.length s.results.length)
      ↔ s.results.length ≠ pairs.length)
    ∧ (∀ e, (fetch_elevations_for_latitude_longitude_pairs P net pairs cache0).1 = .error e
        → e = .cardinalityMismatch pairs.length s.results.length)
    ∧ (s.results.length = pairs.length →
        (fetch_elevations_for_latitude_longitude_pairs P net pairs cache0).1
          = .ok (pairs.zip (s.results.map ElevationResult.elevation)))
    ∧ (∀ out, (fetch_elevations_for_latitude_longitude_pairs P net pairs cache0).1 = .ok out
        → out.length = pairs.length ∧ out.map Prod.fst = pairs) := by
  rw [fetch_eq_of_run P net pairs cache0 s hB hrun]
  by_cases hlen : s.results.length = pairs.length
  · rw [if_pos hlen]
    refine ⟨?_, ?_, ?_, ?_⟩
    · constructor
      · intro h
        cases h
      · intro h
        exact absurd hlen h
    · intro e h
      cases h
    · intro _
      rfl
    · intro out h
      have hout : out = pairs.zip (s.results.map ElevationResult.elevation) := by
        injection h with h2
        exact h2.symm
      subst hout
      constructor
      · rw [List.length_zip, List.length_map, hlen, Nat.min_self]
      · apply List.map_fst_zip
        rw [List.length_map, hlen]
  · rw [if_neg hlen]
    refine ⟨?_, ?_, ?_, ?_⟩
    · constructor
      · intro _
        exact hlen
      · intro _
        rfl
    · intro e h
      injection h with h2
      exact h2.symm
    · intro h
      exact absurd h hlen
    · intro out h
      cases h

/-- Witness for C1 at a concrete input: the empty pair sequence with an empty
cache, where the loop accumulates zero results, the counts agree, and the
fetch returns the empty augmented sequence. -/
theorem fetch_cardinality_spec_witness :
    ((⟨5, 350, 1 / 50, [Seg.auto], []⟩ : FetchParams).max_locations_per_batch ≠ 0)
    ∧ runBatches ⟨5, 350, 1 / 50, [Seg.auto], []⟩ (fun _ => none)
        (chunks (350 : Nat) ([] : List LatLng)) (initLoopState []) = (initLoopState [], none)
    ∧ (fetch_elevations_for_latitude_longitude_pairs ⟨5, 350, 1 / 50, [Seg.auto], []⟩
        (fun _ => none) [] []).1 = .ok [] := by
  refine ⟨by decide, rfl, ?_⟩
  exact (fetch_cardinality_spec ⟨5, 350, 1 / 50, [Seg.auto], []⟩ (fun _ => none) [] []
    (initLoopState []) (by decide) rfl).2.2.1 rfl

/-- C3: for batch size `B > 0` the loop of lines 70-71 partitions the input
into exactly `ceil(N / B)` consecutive batches whose concatenation is the
input, each of size at most `B`; every batch except possibly the last has
size exactly `B`, and the last batch has size `N mod B` (or `B` when `B`
divides `N`). -/
theorem chunks_partition_spec {α : Type} (B : Nat) (hB : 0 < B) (l : List α) :
    (chunks B l).length = (l.length + B - 1) / B
    ∧ (chunks B l).flatten = l
    ∧ (∀ c ∈ chunks B l, c.length ≤ B)
    ∧ (∀ c ∈ (chunks B l).dropLast, c.length = B)
    ∧ (l ≠ [] → ∃ c, (chunks B l).getLast? = some c
        ∧ c.length = (if l.length % B = 0 then B else l.length % B)) :=
  ⟨chunks_length B hB l, chunks_join B hB l, chunks_le B hB l, chunks_dropLast B hB l,
    fun hne => chunks_getLast B hB l hne⟩

/-- Witness for C3 at a concrete input: five elements with batch size two
give three batches, two full and a final singleton. -/
theorem chunks_partition_spec_witness :
    0 < 2
    ∧ (chunks 2 [0, 1, 2, 3, 4]).length = 3
    ∧ (chunks 2 [0, 1, 2, 3, 4]).flatten = [0, 1, 2, 3, 4]
    ∧ (∃ c, (chunks 2 [0, 1, 2, 3, 4]).getLast? = some c ∧ c.length = 1) := by
  have h := chunks_partition_spec 2 (by decide) [0, 1, 2, 3, 4]
  refine ⟨by decide, h.1, h.2.1, ?_⟩
  obtain ⟨c, hc1, hc2⟩ := h.2.2.2.2 (by decide)
  exact ⟨c, hc1, by simpa using hc2⟩

/-- C2: when every batch resolves to a response carrying exactly one result
entry per coordinate pair of the batch, the fetch succeeds, returns exactly
one elevation per input pair, and the elevation at global position `j` is the
one extracted at offset `j mod B` of the response of batch `j / B` — order is
preserved within each batch and across batch boundaries. -/
theorem fetch_order_preservation (P : FetchParams) (net : String → Option HttpResponse)
    (pairs : List LatLng) (cache0 : List (String × ResponseJson))
    (hB : 0 < P.max_locations_per_batch)
    (hres : ∀ c ∈ chunks P.max_locations_per_batch pairs,
      ∃ rj, chunkResp P cache0 net c = some rj ∧ rj.results.length = c.length) :
    ∃ out, (fetch_elevations_for_latitude_longitude_pairs P net pairs cache0).1 = .ok out
      ∧ out.length = pairs.length
      ∧ ∀ j, j < pairs.length →
          ∃ ck rj p entry,
            (chunks P.max_locations_per_batch pairs)[j / P.max_locations_per_batch]? = some ck
            ∧ chunkResp P cache0 net ck = some rj
            ∧ rj.results[j % P.max_locations_per_batch]? = some entry
            ∧ pairs[j]? = some p
            ∧ out[j]? = some (p, entry.elevation) := by
  have hBne : P.max_locations_per_batch ≠ 0 := by omega
  have hfa : cacheFaithful cache0 net (initLoopState cache0).cache := by
    constructor
    · intro u v h
      exact h
    · intro u v h
      simp only [effResp]
      rw [show List.lookup u cache0 = some v from h]
  have hsome : ∀ c ∈ chunks P.max_locations_per_batch pairs,
      (chunkResp P cache0 net c).isSome := by
    intro c hc
    obtain ⟨rj, h1, _⟩ := hres c hc
    rw [h1]
    rfl
  obtain ⟨s1, hrun, hresl, _, _, _⟩ :=
    runBatches_spec P net cache0 (chunks P.max_locations_per_batch pairs)
      (initLoopState cache0) hfa hsome
  have hres1 : s1.results
      = ((chunks P.max_locations_per_batch pairs).map
          (fun c => (chunkRespD P cache0 net c).results)).flatten := by
    simpa using hresl
  have hmemlen : ∀ c ∈ chunks P.max_locations_per_batch pairs,
      (chunkRespD P cache0 net c).results.length = c.length := by
    intro c hc
    obtain ⟨rj, h1, h2⟩ := hres c hc
    unfold chunkRespD
    rw [h1]
    exact h2
  have hLlen : (((chunks P.max_locations_per_batch pairs).map
      (fun c => (chunkRespD P cache0 net c).results)).flatten).length = pairs.length := by
    rw [List.length_flatten, List.map_map]
    have he : ((chunks P.max_locations_per_batch pairs).map
          (List.length ∘ fun c => (chunkRespD P cache0 net c).results))
        = (chunks P.max_locations_per_batch pairs).map List.length := by
      apply List.map_congr_left
      intro c hc
      exact hmemlen c hc
    rw [he]
    have := congrArg List.length (chunks_join P.max_locations_per_batch hB pairs)
    rw [List.length_flatten] at this
    exact this
  have hs1len : s1.results.length = pairs.length := by
    rw [hres1]
    exact hLlen
  rw [fetch_eq_of_run P net pairs cache0 s1 hBne hrun, if_pos hs1len]
  refine ⟨pairs.zip (s1.results.map ElevationResult.elevation), rfl, ?_, ?_⟩
  · rw [List.length_zip, List.length_map, hs1len, Nat.min_self]
  · intro j hj
    have hj' : j < s1.results.length := by omega
    have hj2 : j < (((chunks P.max_locations_per_batch pairs).map
        (fun c => (chunkRespD P cache0 net c).results)).flatten).length := by
      rw [hLlen]
      exact hj
    have hlenL : ∀ k w, k + 1 < ((chunks P.max_locations_per_batch pairs).map
          (fun c => (chunkRespD P cache0 net c).results)).length →
        ((chunks P.max_locations_per_batch pairs).map
          (fun c => (chunkRespD P cache0 net c).results))[k]? = some w → w.length
          = P.max_locations_per_batch := by
      intro k w hk hkw
      rw [List.length_map] at hk
      rw [List.getElem?_map] at hkw
      cases hck : (chunks P.max_locations_per_batch pairs)[k]? with
      | none => rw [hck] at hkw; cases hkw
      | some ck =>
        rw [hck] at hkw
        have hw : w = (chunkRespD P cache0 net ck).results := by
          simpa using hkw.symm
        subst hw
        rw [hmemlen ck (List.getElem?_mem hck)]
        exact chunks_getElem_len P.max_locations_per_batch hB pairs k ck hk hck
    have hleL : ∀ w ∈ ((chunks P.max_locations_per_batch pairs).map
        (fun c => (chunkRespD P cache0 net c).results)), w.length
        ≤ P.max_locations_per_batch := by
      intro w hw
      obtain ⟨ck, hck, hwe⟩ := List.mem_map.mp hw
      subst hwe
      rw [hmemlen ck hck]
      exact chunks_le P.max_locations_per_batch hB pairs ck hck
    obtain ⟨w, hw1, hw2⟩ := flatten_getElem_chunked P.max_locations_per_batch hB _
      hlenL hleL j hj2
    rw [List.getElem?_map] at hw1
    cases hck : (chunks P.max_locations_per_batch pairs)[j / P.max_locations_per_batch]? with
    | none => rw [hck] at hw1; cases hw1
    | some ck =>
      rw [hck] at hw1
      have hw : w = (chunkRespD P cache0 net ck).results := by
        simpa using hw1.symm
      subst hw
      obtain ⟨rj, hrj, _⟩ := hres ck (List.getElem?_mem hck)
      have hcrd : chunkRespD P cache0 net ck = rj := by
        unfold chunkRespD
        rw [hrj]
        rfl
      have hentry : ∃ entry, rj.results[j % P.max_locations_per_batch]? = some entry := by
        rw [← hcrd, ← hw2, ← hres1]
        exact ⟨s1.results[j], List.getElem?_eq_getElem hj'⟩
      obtain ⟨entry, hent⟩ := hentry
      refine ⟨ck, rj, pairs[j], entry, rfl, hrj, hent, List.getElem?_eq_getElem hj, ?_⟩
      apply zip_getElem_some
      · exact List.getElem?_eq_getElem hj
      · rw [List.getElem?_map]
        have : s1.results[j]? = some entry := by
          rw [hres1, hw2, hcrd]
          exact hent
        rw [this]
        rfl

unseal Rat.mul Rat.add Rat.sub Rat.inv in
/-- Witness for C2 at a concrete input: two pairs split into two singleton
batches whose responses carry elevations 10 and 20; the output pairs them
back in order, as the closing evaluation shows. -/
theorem fetch_order_preservation_witness :
    0 < wParams.max_locations_per_batch
    ∧ (∀ c ∈ chunks wParams.max_locations_per_batch wPairs,
        ∃ rj, chunkResp wParams [] wNet c = some rj ∧ rj.results.length = c.length)
    ∧ (∃ out, (fetch_elevations_for_latitude_longitude_pairs wParams wNet wPairs []).1
          = .ok out
        ∧ out.length = wPairs.length
        ∧ ∀ j, j < wPairs.length →
            ∃ ck rj p entry,
              (chunks wParams.max_locations_per_batch
                  wPairs)[j / wParams.max_locations_per_batch]? = some ck
              ∧ chunkResp wParams [] wNet ck = some rj
              ∧ rj.results[j % wParams.max_locations_per_batch]? = some entry
              ∧ wPairs[j]? = some p
              ∧ out[j]? = some (p, entry.elevation))
    ∧ (fetch_elevations_for_latitude_longitude_pairs wParams wNet wPairs []).1
        = .ok [(⟨1, 2⟩, 10), (⟨3, 4⟩, 20)] := by
  have hres : ∀ c ∈ chunks wParams.max_locations_per_batch wPairs,
      ∃ rj, chunkResp wParams [] wNet c = some rj ∧ rj.results.length = c.length := by
    intro c hc
    have hch : chunks wParams.max_locations_per_batch wPairs = [[⟨1, 2⟩], [⟨3, 4⟩]] := by
      decide
    rw [hch] at hc
    simp only [List.mem_cons, List.not_mem_nil, or_false] at hc
    rcases hc with rfl | rfl
    · exact ⟨⟨[⟨10⟩]⟩, by decide, by decide⟩
    · exact ⟨⟨[⟨20⟩]⟩, by decide, by decide⟩
  exact ⟨by decide, hres,
    fetch_order_preservation wParams wNet wPairs [] (by decide) hres, by decide⟩

theorem cacheFaithful_init (cache0 : List (String × ResponseJson))
    (net : String → Option HttpResponse) : cacheFaithful cache0 net cache0 := by
  constructor
  · intro u v h
    exact h
  · intro u v h
    simp only [effResp]
    rw [show List.lookup u cache0 = some v from h]

/-- C6: per batch, a cache hit uses the cached parsed response and performs
no pause and no network request (the state changes only by the recorded
response and the appended results), while a cache miss pauses, issues the
request and stores the parsed response under the URL; consequently a second
fetch run over the same pairs, starting from the cache the first run
produced, performs no pause or network event at all and returns the first
run's result and cache unchanged. -/
theorem fetch_cache_idempotence (P : FetchParams) (net : String → Option HttpResponse)
    (pairs : List LatLng) (cache0 : List (String × ResponseJson))
    (hB : 0 < P.max_locations_per_batch)
    (hres : ∀ c ∈ chunks P.max_locations_per_batch pairs,
      (chunkResp P cache0 net c).isSome) :
    (∀ (s : LoopState) ck url rj, buildUrl P ck = .ok url →
        List.lookup url s.cache = some rj →
        processBatch P net s ck
          = ({ s with response_json := some rj, results := s.results ++ rj.results }, none))
    ∧ (∀ (s : LoopState) ck url resp rj, buildUrl P ck = .ok url →
        List.lookup url s.cache = none → net url = some resp → resp.body = some rj →
        processBatch P net s ck
          = ({ s with results := s.results ++ rj.results,
                      cache := (url, rj) :: s.cache,
                      response := some resp,
                      response_json := some rj,
                      trace := s.trace ++ [Event.sleep P.pause_duration, Event.netGet url] },
              none))
    ∧ (fetch_elevations_for_latitude_longitude_pairs P net pairs
          (fetch_elevations_for_latitude_longitude_pairs P net pairs cache0).2.1).2.2 = []
    ∧ fetch_elevations_for_latitude_longitude_pairs P net pairs
          (fetch_elevations_for_latitude_longitude_pairs P net pairs cache0).2.1
        = ((fetch_elevations_for_latitude_longitude_pairs P net pairs cache0).1,
           (fetch_elevations_for_latitude_longitude_pairs P net pairs cache0).2.1, []) := by
  have hBne : P.max_locations_per_batch ≠ 0 := by omega
  obtain ⟨s1, hrun1, hresl1, hf1, hmono1, hurl1⟩ :=
    runBatches_spec P net cache0 (chunks P.max_locations_per_batch pairs)
      (initLoopState cache0) (cacheFaithful_init cache0 net) hres
  have hhits : ∀ c ∈ chunks P.max_locations_per_batch pairs,
      ∃ url, buildUrl P c = .ok url
        ∧ List.lookup url (initLoopState s1.cache).cache
            = some (chunkRespD P cache0 net c) := by
    intro c hc
    obtain ⟨url, hu⟩ : ∃ url, buildUrl P c = .ok url := by
      have h0 := hres c hc
      cases hbu : buildUrl P c with
      | ok u => exact ⟨u, rfl⟩
      | error e =>
        unfold chunkResp at h0
        rw [hbu] at h0
        simp at h0
    exact ⟨url, hu, hurl1 c hc url hu⟩
  obtain ⟨s2, hrun2, hresl2, hcache2, htr2⟩ :=
    runBatches_hits P net cache0 (chunks P.max_locations_per_batch pairs)
      (initLoopState s1.cache) hhits
  have hres12 : s2.results = s1.results := by
    rw [hresl2, hresl1]
    rfl
  have hc2 : s2.cache = s1.cache := by
    rw [hcache2]
    rfl
  have ht2 : s2.trace = [] := by
    rw [htr2]
    rfl
  have he1 := fetch_eq_of_run P net pairs cache0 s1 hBne hrun1
  have he2 := fetch_eq_of_run P net pairs s1.cache s2 hBne hrun2
  have hcache1 :
      (fetch_elevations_for_latitude_longitude_pairs P net pairs cache0).2.1 = s1.cache := by
    rw [he1]
    split <;> rfl
  refine ⟨?_, ?_, ?_, ?_⟩
  · intro s ck url rj hu hc
    exact processBatch_hit P net s ck url rj hu hc
  · intro s ck url resp rj hu hc hn hb
    exact processBatch_miss_ok P net s ck url resp rj hu hc hn hb
  · rw [hcache1, he2, hres12, hc2, ht2]
    split <;> rfl
  · rw [hcache1, he2, he1, hres12, hc2, ht2]
    by_cases h : s1.results.length = pairs.length
    · rw [if_pos h, if_pos h]
    · rw [if_neg h, if_neg h]

unseal Rat.mul Rat.add Rat.sub Rat.inv in
/-- Witness for C6 at a concrete input: two pairs fetched against an empty
cache; the second run is served entirely from the cache built by the first:
its event trace is empty while the first run slept and issued a network
request per batch. -/
theorem fetch_cache_idempotence_witness :
    0 < wParams.max_locations_per_batch
    ∧ (∀ c ∈ chunks wParams.max_locations_per_batch wPairs,
        (chunkResp wParams [] wNet c).isSome)
    ∧ (fetch_elevations_for_latitude_longitude_pairs wParams wNet wPairs
          (fetch_elevations_for_latitude_longitude_pairs wParams wNet wPairs []).2.1).2.2 = []
    ∧ fetch_elevations_for_latitude_longitude_pairs wParams wNet wPairs
          (fetch_elevations_for_latitude_longitude_pairs wParams wNet wPairs []).2.1
        = ((fetch_elevations_for_latitude_longitude_pairs wParams wNet wPairs []).1,
           (fetch_elevations_for_latitude_longitude_pairs wParams wNet wPairs []).2.1, [])
    ∧ (fetch_elevations_for_latitude_longitude_pairs wParams wNet wPairs []).2.2
        = [.sleep (1 / 50), .netGet "1,2", .sleep (1 / 50), .netGet "3,4"] := by
  have hres : ∀ c ∈ chunks wParams.max_locations_per_batch wPairs,
      (chunkResp wParams [] wNet c).isSome := by
    intro c hc
    have hch : chunks wParams.max_locations_per_batch wPairs = [[⟨1, 2⟩], [⟨3, 4⟩]] := by
      decide
    rw [hch] at hc
    simp only [List.mem_cons, List.not_mem_nil, or_false] at hc
    rcases hc with rfl | rfl
    · decide
    · decide
  have h := fetch_cache_idempotence wParams wNet wPairs [] (by decide) hres
  exact ⟨by decide, hres, h.2.2.1, h.2.2.2, by decide⟩

unseal Rat.mul Rat.add Rat.sub Rat.inv in
/-- C4 (code-bug evaluation): the locations string itself is built correctly
(latitude then longitude, each with exactly P decimal places, joined with a
pipe), but substituting it into the default `url_template` fails, because
line 73 passes the locations string positionally while the default
template's field is the named field `locations` — Python raises
`KeyError('locations')`, and the fetch aborts with it instead of producing a
URL containing the locations string.  With `add_node_elevations`' default
template (two auto-numbered fields) the same call raises IndexError. -/
theorem default_url_template_substitution_fails :
    locationsOf 5 [⟨0, 0⟩] = "0.00000,0.00000"
    ∧ buildUrl ⟨5, 350, 1 / 50, defaultUrlTemplate, [("api_key", "KEY")]⟩ [⟨0, 0⟩]
        = .error (.keyError "locations")
    ∧ (fetch_elevations_for_latitude_longitude_pairs
        ⟨5, 350, 1 / 50, defaultUrlTemplate, [("api_key", "KEY")]⟩ (fun _ => none)
        [⟨0, 0⟩] []).1 = .error (.keyError "locations")
    ∧ formatTemplate nodeUrlTemplate ["0.00000,0.00000"] 0 [("api_key", "KEY")]
        = .error .indexError :=
  ⟨by decide, by decide, by decide, by decide⟩

unseal Rat.mul Rat.add Rat.sub Rat.inv in
/-- C5 (code-bug evaluation): a failed batch does not contribute zero
results.  With two singleton batches where the second network call raises,
line 92 reads the stale `response_json` of the first batch, so the second
pair silently receives the first batch's elevation (7) and the run ends
without any error — the cardinality check cannot fire because the stale
extension kept the count right.  And when the very first uncached batch
fails, the handler's log line 89 reads the never-bound `response`, so the
fetch aborts with a NameError instead of continuing to the cardinality
check. -/
theorem failed_batch_stale_results :
    wNetFail "3,4" = none
    ∧ (fetch_elevations_for_latitude_longitude_pairs wParams wNetFail wPairs []).1
        = .ok [(⟨1, 2⟩, 7), (⟨3, 4⟩, 7)]
    ∧ (fetch_elevations_for_latitude_longitude_pairs wParams (fun _ => none)
        [⟨1, 2⟩] []).1 = .error (.nameError "response") :=
  ⟨by decide, by decide, by decide⟩

theorem lookup_writeGrade_grade (b : Bool) (d : AttrDict) (g : ℚ) :
    List.lookup "grade" (writeGrade b d g) = some (.num g) := by
  cases b with
  | false =>
    show List.lookup "grade" (setAttr d "grade" (.num g)) = some (.num g)
    rw [lookup_setAttr, if_pos rfl]
  | true =>
    show List.lookup "grade"
        (setAttr (setAttr d "grade" (.num g)) "grade_abs" (.num |g|)) = some (.num g)
    rw [lookup_setAttr, if_neg (by decide), lookup_setAttr, if_pos rfl]

theorem lookup_writeGrade_abs (d : AttrDict) (g : ℚ) :
    List.lookup "grade_abs" (writeGrade true d g) = some (.num |g|) := by
  show List.lookup "grade_abs"
      (setAttr (setAttr d "grade" (.num g)) "grade_abs" (.num |g|)) = some (.num |g|)
  rw [lookup_setAttr, if_pos rfl]

theorem lookup_writeGrade_frame (b : Bool) (d : AttrDict) (g : ℚ) (key : String)
    (h1 : key ≠ "grade") (h2 : b = true → key ≠ "grade_abs") :
    List.lookup key (writeGrade b d g) = List.lookup key d := by
  cases b with
  | false =>
    show List.lookup key (setAttr d "grade" (.num g)) = List.lookup key d
    rw [lookup_setAttr, if_neg h1]
  | true =>
    show List.lookup key
        (setAttr (setAttr d "grade" (.num g)) "grade_abs" (.num |g|)) = List.lookup key d
    rw [lookup_setAttr, if_neg (h2 rfl), lookup_setAttr, if_neg h1]

theorem gradeOneEdge_eq (G : Graph) (b : Bool) (p : NodeId × NodeId × AttrDict)
    (hp : perEdgeOk G p) : gradeOneEdge G b p = .ok (gradedEdge G b p) := by
  obtain ⟨u, v, d⟩ := p
  obtain ⟨ev, eu, len, hv, hu2, hl, hlz⟩ := hp
  replace hv : nodeAttr G v "elevation" = .ok (.num ev) := hv
  replace hu2 : nodeAttr G u "elevation" = .ok (.num eu) := hu2
  replace hl : List.lookup "length" d = some (.num len) := hl
  have he1 : elevD G v = ev := by
    unfold elevD
    rw [hv]
  have he2 : elevD G u = eu := by
    unfold elevD
    rw [hu2]
  have he3 : lenD d = len := by
    unfold lenD
    rw [hl]
  unfold gradeOneEdge gradedEdge
  simp only [hv, hu2, attrSub, hl, if_neg hlz, he1, he2, he3]

theorem add_edge_grades_eq (G : Graph) (b : Bool)
    (h : ∀ p ∈ G.edges, perEdgeOk G p) :
    add_edge_grades G b = .ok ⟨G.nodes, G.edges.map (gradedEdge G b)⟩ := by
  unfold add_edge_grades
  rw [mapExceptList_ok_of (gradeOneEdge G b) (gradedEdge G b) G.edges
    (fun p hp => gradeOneEdge_eq G b p (h p hp))]

/-- C7: for a graph whose edge endpoints all carry numeric elevations and
whose edges all have nonzero numeric lengths, the edge-grade annotator
succeeds and writes onto each edge the attribute `grade` equal to
`round((elevation[v] - elevation[u]) / length, 4)` and, when `add_absolute`
is set, the attribute `grade_abs` equal to its absolute value; endpoints and
edge order are preserved. -/
theorem add_edge_grades_writes_grades (G : Graph) (b : Bool)
    (h : ∀ p ∈ G.edges, perEdgeOk G p) :
    ∃ G2, add_edge_grades G b = .ok G2
      ∧ G2.edges.length = G.edges.length
      ∧ ∀ k, k < G.edges.length →
          ∃ p q, G.edges[k]? = some p ∧ G2.edges[k]? = some q
            ∧ q.1 = p.1 ∧ q.2.1 = p.2.1
            ∧ List.lookup "grade" q.2.2
                = some (.num (pythonRound 4 ((elevD G p.2.1 - elevD G p.1) / lenD p.2.2)))
            ∧ (b = true → List.lookup "grade_abs" q.2.2
                = some (.num |pythonRound 4 ((elevD G p.2.1 - elevD G p.1) / lenD p.2.2)|)) := by
  refine ⟨⟨G.nodes, G.edges.map (gradedEdge G b)⟩, add_edge_grades_eq G b h, by simp, ?_⟩
  intro k hk
  have hp : G.edges[k]? = some G.edges[k] := List.getElem?_eq_getElem hk
  refine ⟨G.edges[k], gradedEdge G b G.edges[k], hp, ?_, rfl, rfl, ?_, ?_⟩
  · show (G.edges.map (gradedEdge G b))[k]? = some (gradedEdge G b G.edges[k])
    rw [List.getElem?_map, hp]
    rfl
  · exact lookup_writeGrade_grade b _ _
  · intro hb
    subst hb
    exact lookup_writeGrade_abs _ _

/-- C10: under the same success preconditions, the edge-grade annotator is
frame-preserving: the node list is unchanged, edge endpoints and order are
unchanged, every edge attribute other than `grade` (and `grade_abs` when
`add_absolute` is true) — in particular `length` — is unchanged, and when
`add_absolute` is false the `grade_abs` attribute is not written (its lookup
is exactly what it was before). -/
theorem add_edge_grades_frame (G : Graph) (b : Bool)
    (h : ∀ p ∈ G.edges, perEdgeOk G p) :
    ∃ G2, add_edge_grades G b = .ok G2
      ∧ G2.nodes = G.nodes
      ∧ G2.edges.length = G.edges.length
      ∧ ∀ k, k < G.edges.length →
          ∃ p q, G.edges[k]? = some p ∧ G2.edges[k]? = some q
            ∧ q.1 = p.1 ∧ q.2.1 = p.2.1
            ∧ (∀ key : String, key ≠ "grade" → (b = true → key ≠ "grade_abs") →
                List.lookup key q.2.2 = List.lookup key p.2.2)
            ∧ (b = false →
                List.lookup "grade_abs" q.2.2 = List.lookup "grade_abs" p.2.2) := by
  refine ⟨⟨G.nodes, G.edges.map (gradedEdge G b)⟩, add_edge_grades_eq G b h, rfl, by simp, ?_⟩
  intro k hk
  have hp : G.edges[k]? = some G.edges[k] := List.getElem?_eq_getElem hk
  refine ⟨G.edges[k], gradedEdge G b G.edges[k], hp, ?_, rfl, rfl, ?_, ?_⟩
  · show (G.edges.map (gradedEdge G b))[k]? = some (gradedEdge G b G.edges[k])
    rw [List.getElem?_map, hp]
    rfl
  · intro key h1 h2
    exact lookup_writeGrade_frame b _ _ key h1 h2
  · intro hb
    subst hb
    exact lookup_writeGrade_frame false _ _ "grade_abs" (by decide) (fun ht => by cases ht)

unseal Rat.mul Rat.add Rat.sub Rat.inv in
/-- Witness for C7 at the concrete instance of the claim: elevations 100 and
110 joined by directed edges of length 50 give grade 0.2 on the forward edge
and -0.2 on the reverse edge, both with grade_abs 0.2. -/
theorem add_edge_grades_writes_grades_witness :
    (∀ p ∈ wGraph.edges, perEdgeOk wGraph p)
    ∧ (∃ G2, add_edge_grades wGraph true = .ok G2
        ∧ G2.edges.length = wGraph.edges.length
        ∧ ∀ k, k < wGraph.edges.length →
            ∃ p q, wGraph.edges[k]? = some p ∧ G2.edges[k]? = some q
              ∧ q.1 = p.1 ∧ q.2.1 = p.2.1
              ∧ List.lookup "grade" q.2.2
                  = some (.num (pythonRound 4
                      ((elevD wGraph p.2.1 - elevD wGraph p.1) / lenD p.2.2)))
              ∧ (true = true → List.lookup "grade_abs" q.2.2
                  = some (.num |pythonRound 4
                      ((elevD wGraph p.2.1 - elevD wGraph p.1) / lenD p.2.2)|)))
    ∧ pythonRound 4 ((110 - 100) / 50 : ℚ) = 1 / 5
    ∧ add_edge_grades wGraph true
        = .ok ⟨[(.int 1, [("elevation", .num 100), ("name", .str "a")]),
                (.int 2, [("elevation", .num 110)])],
               [(.int 1, .int 2, [("length", .num 50), ("osmid", .str "e12"),
                  ("grade", .num (1 / 5)), ("grade_abs", .num (1 / 5))]),
                (.int 2, .int 1, [("length", .num 50),
                  ("grade", .num (-(1 / 5))), ("grade_abs", .num (1 / 5))])]⟩ := by
  have hok : ∀ p ∈ wGraph.edges, perEdgeOk wGraph p := by
    intro p hp
    have hpe : p = (.int 1, .int 2, [("length", .num 50), ("osmid", .str "e12")])
        ∨ p = (.int 2, .int 1, [("length", .num 50)]) := by
      simpa [wGraph] using hp
    rcases hpe with rfl | rfl
    · exact ⟨110, 100, 50, by decide, by decide, by decide, by decide⟩
    · exact ⟨100, 110, 50, by decide, by decide, by decide, by decide⟩
  exact ⟨hok, add_edge_grades_writes_grades wGraph true hok, by decide, by decide⟩

unseal Rat.mul Rat.add Rat.sub Rat.inv in
/-- Witness for C10 at a concrete input with `add_absolute = false`: the
nodes, the endpoints, the `length` and `osmid` attributes are untouched, and
no `grade_abs` attribute appears. -/
theorem add_edge_grades_frame_witness :
    (∀ p ∈ wGraph.edges, perEdgeOk wGraph p)
    ∧ (∃ G2, add_edge_grades wGraph false = .ok G2
        ∧ G2.nodes = wGraph.nodes
        ∧ G2.edges.length = wGraph.edges.length
        ∧ ∀ k, k < wGraph.edges.length →
            ∃ p q, wGraph.edges[k]? = some p ∧ G2.edges[k]? = some q
              ∧ q.1 = p.1 ∧ q.2.1 = p.2.1
              ∧ (∀ key : String, key ≠ "grade" → (false = true → key ≠ "grade_abs") →
                  List.lookup key q.2.2 = List.lookup key p.2.2)
              ∧ (false = false →
                  List.lookup "grade_abs" q.2.2 = List.lookup "grade_abs" p.2.2))
    ∧ add_edge_grades wGraph false
        = .ok ⟨[(.int 1, [("elevation", .num 100), ("name", .str "a")]),
                (.int 2, [("elevation", .num 110)])],
               [(.int 1, .int 2, [("length", .num 50), ("osmid", .str "e12"),
                  ("grade", .num (1 / 5))]),
                (.int 2, .int 1, [("length", .num 50), ("grade", .num (-(1 / 5)))])]⟩ := by
  have hok : ∀ p ∈ wGraph.edges, perEdgeOk wGraph p := by
    intro p hp
    have hpe : p = (.int 1, .int 2, [("length", .num 50), ("osmid", .str "e12")])
        ∨ p = (.int 2, .int 1, [("length", .num 50)]) := by
      simpa [wGraph] using hp
    rcases hpe with rfl | rfl
    · exact ⟨110, 100, 50, by decide, by decide, by decide, by decide⟩
    · exact ⟨100, 110, 50, by decide, by decide, by decide, by decide⟩
  exact ⟨hok, add_edge_grades_frame wGraph false hok, by decide⟩

/-- C8: the post-fetch phase of the node annotator (lines 154-165) fails
with the count-mismatch error exactly when the number of fetched elevation
values differs from the number of nodes; otherwise it writes onto every node,
under the fixed attribute name `elevation`, the fetched value for that node's
identifier rounded to 3 decimal places, and the write replaces any prior
`elevation` binding in place (the lookup afterwards returns exactly the new
value). -/
theorem attach_node_elevations_spec (G : Graph) (elevs : List ℚ) :
    (elevs.length ≠ G.nodes.length →
      attachElevations G (G.nodes.map Prod.fst) elevs
        = .error (.nodeCardinalityMismatch G.nodes.length elevs.length))
    ∧ (elevs.length = G.nodes.length →
      ∃ G2, attachElevations G (G.nodes.map Prod.fst) elevs = .ok G2
        ∧ G2.edges = G.edges
        ∧ G2.nodes.length = G.nodes.length
        ∧ ∀ k, k < G.nodes.length →
            ∃ p e, G.nodes[k]? = some p
              ∧ pyDictLookup ((G.nodes.map Prod.fst).zip (elevs.map (pythonRound 3))) p.1
                  = some e
              ∧ G2.nodes[k]? = some (p.1, setAttr p.2 "elevation" (.num e))
              ∧ List.lookup "elevation" (setAttr p.2 "elevation" (.num e))
                  = some (.num e)) := by
  constructor
  · intro hne
    unfold attachElevations
    rw [if_neg hne]
  · intro heq
    unfold attachElevations
    rw [if_pos heq]
    refine ⟨_, rfl, rfl, by simp, ?_⟩
    intro k hk
    have hp : G.nodes[k]? = some G.nodes[k] := List.getElem?_eq_getElem hk
    have hmemp : G.nodes[k] ∈ G.nodes := List.getElem_mem hk
    have hmem : G.nodes[k].1 ∈ G.nodes.map Prod.fst :=
      List.mem_map_of_mem Prod.fst hmemp
    have hkeys : ((G.nodes.map Prod.fst).zip (elevs.map (pythonRound 3))).map Prod.fst
        = G.nodes.map Prod.fst := by
      apply List.map_fst_zip
      rw [List.length_map, List.length_map, heq]
    have hmem2 : G.nodes[k].1
        ∈ (((G.nodes.map Prod.fst).zip (elevs.map (pythonRound 3))).reverse).map
            Prod.fst := by
      rw [List.map_reverse, List.mem_reverse, hkeys]
      exact hmem
    obtain ⟨e, he⟩ := lookup_of_mem_keys _ G.nodes[k].1 hmem2
    have he2 : pyDictLookup ((G.nodes.map Prod.fst).zip (elevs.map (pythonRound 3)))
        G.nodes[k].1 = some e := he
    refine ⟨G.nodes[k], e, hp, he2, ?_, ?_⟩
    · rw [List.getElem?_map, hp]
      simp only [Option.map_some, Option.map_some', he2]
    · rw [lookup_setAttr, if_pos rfl]

unseal Rat.mul Rat.add Rat.sub Rat.inv in
/-- Witness for C8 at a concrete input: two nodes and the fetched values
123.45678 and 5; the first is stored as 123.457 (3 decimal places) and the
second node's prior elevation attribute is replaced in place, not merged. -/
theorem attach_node_elevations_spec_witness :
    ([12345678 / 100000, (5 : ℚ)].length = wGraphN.nodes.length)
    ∧ (∃ G2, attachElevations wGraphN (wGraphN.nodes.map Prod.fst)
          [12345678 / 100000, (5 : ℚ)] = .ok G2
        ∧ G2.edges = wGraphN.edges
        ∧ G2.nodes.length = wGraphN.nodes.length
        ∧ ∀ k, k < wGraphN.nodes.length →
            ∃ p e, wGraphN.nodes[k]? = some p
              ∧ pyDictLookup ((wGraphN.nodes.map Prod.fst).zip
                  ([12345678 / 100000, (5 : ℚ)].map (pythonRound 3))) p.1 = some e
              ∧ G2.nodes[k]? = some (p.1, setAttr p.2 "elevation" (.num e))
              ∧ List.lookup "elevation" (setAttr p.2 "elevation" (.num e))
                  = some (.num e))
    ∧ pythonRound 3 (12345678 / 100000 : ℚ) = 123457 / 1000
    ∧ attachElevations wGraphN (wGraphN.nodes.map Prod.fst)
        [12345678 / 100000, (5 : ℚ)]
      = .ok ⟨[(.int 1, [("x", .num 1), ("y", .num 2),
                ("elevation", .num (123457 / 1000))]),
              (.int 2, [("x", .num 3), ("y", .num 4), ("elevation", .num 5)])], []⟩ := by
  exact ⟨by decide,
    (attach_node_elevations_spec wGraphN [12345678 / 100000, (5 : ℚ)]).2 (by decide),
    by decide, by decide⟩

/-- C9 counterexample: node identifiers are not treated as opaque keys — a
one-node graph whose key is the string "a", with numeric x and y attributes,
is rejected by the dtype assertion of line 140, while the identical graph
with the integer key 1 is accepted; the rejection is caused purely by the
type of the node key. -/
theorem coord_table_rejects_string_keys :
    buildCoordTable ⟨[(.str "a", [("y", .num 1), ("x", .num 2)])], []⟩
      = .error .assertionError
    ∧ buildCoordTable ⟨[(.int 1, [("y", .num 1), ("x", .num 2)])], []⟩
      = .ok [(.int 1, 1, 2)] :=
  ⟨by decide, by decide⟩

/-- C9 (amended): for a graph whose nodes all carry numeric `x` and `y`
attributes, the coordinate-table construction of lines 138-143 succeeds if
and only if the graph is nonempty and every node key is an integer — the
assertion `df.node_id.dtype == np.int64` (line 140) rejects any other key
type (and the empty graph, whose columns get dtype `object`). -/
theorem coord_table_int_keys_spec (G : Graph)
    (hxy : ∀ p ∈ G.nodes, ∃ qy qx, List.lookup "y" p.2 = some (.num qy)
      ∧ List.lookup "x" p.2 = some (.num qx)) :
    (∃ t, buildCoordTable G = .ok t)
      ↔ (G.nodes ≠ [] ∧ ∀ p ∈ G.nodes, p.1.isInt = true) := by
  have hmap : mapExceptList (fun p =>
      match List.lookup "y" p.2 with
      | none => .error (.keyError "y")
      | some yv =>
        match List.lookup "x" p.2 with
        | none => .error (.keyError "x")
        | some xv => .ok (p.1, yv, xv)) G.nodes
    = .ok (G.nodes.map (fun p =>
        (p.1, (List.lookup "y" p.2).getD (AttrVal.num 0),
          (List.lookup "x" p.2).getD (AttrVal.num 0)))) := by
    apply mapExceptList_ok_of
    intro p hp
    obtain ⟨qy, qx, hy, hx⟩ := hxy p hp
    simp only [hy, hx, Option.getD_some]
  have hids : (G.nodes.map (fun p =>
        (p.1, (List.lookup "y" p.2).getD (AttrVal.num 0),
          (List.lookup "x" p.2).getD (AttrVal.num 0)))).map Prod.fst
      = G.nodes.map Prod.fst := by
    rw [List.map_map]
    exact List.map_congr_left (fun a _ => rfl)
  have hint : dtypeIsInt64 (G.nodes.map Prod.fst) = true
      ↔ (G.nodes ≠ [] ∧ ∀ p ∈ G.nodes, p.1.isInt = true) := by
    unfold dtypeIsInt64
    rw [Bool.and_eq_true, List.all_eq_true]
    constructor
    · rintro ⟨h1, h2⟩
      constructor
      · intro hnil
        rw [hnil] at h1
        simp at h1
      · intro p hp
        exact h2 p.1 (List.mem_map_of_mem Prod.fst hp)
    · rintro ⟨h1, h2⟩
      constructor
      · cases hG : G.nodes with
        | nil => exact absurd hG h1
        | cons a t => rfl
      · intro x hx
        obtain ⟨p, hp, rfl⟩ := List.mem_map.mp hx
        exact h2 p hp
  have hfloat1 : G.nodes ≠ [] → dtypeIsFloat64 ((G.nodes.map (fun p =>
        (p.1, (List.lookup "y" p.2).getD (AttrVal.num 0),
          (List.lookup "x" p.2).getD (AttrVal.num 0)))).map (fun t => t.2.1)) = true := by
    intro hne
    unfold dtypeIsFloat64
    rw [Bool.and_eq_true, List.all_eq_true]
    constructor
    · rw [List.map_map]
      cases hG : G.nodes with
      | nil => exact absurd hG hne
      | cons a t => rfl
    · intro x hx
      rw [List.map_map] at hx
      obtain ⟨p, hp, rfl⟩ := List.mem_map.mp hx
      obtain ⟨qy, qx, hy, hx2⟩ := hxy p hp
      show AttrVal.isNum ((List.lookup "y" p.2).getD (AttrVal.num 0)) = true
      rw [hy]
      rfl
  have hfloat2 : G.nodes ≠ [] → dtypeIsFloat64 ((G.nodes.map (fun p =>
        (p.1, (List.lookup "y" p.2).getD (AttrVal.num 0),
          (List.lookup "x" p.2).getD (AttrVal.num 0)))).map (fun t => t.2.2)) = true := by
    intro hne
    unfold dtypeIsFloat64
    rw [Bool.and_eq_true, List.all_eq_true]
    constructor
    · rw [List.map_map]
      cases hG : G.nodes with
      | nil => exact absurd hG hne
      | cons a t => rfl
    · intro x hx
      rw [List.map_map] at hx
      obtain ⟨p, hp, rfl⟩ := List.mem_map.mp hx
      obtain ⟨qy, qx, hy, hx2⟩ := hxy p hp
      show AttrVal.isNum ((List.lookup "x" p.2).getD (AttrVal.num 0)) = true
      rw [hx2]
      rfl
  unfold buildCoordTable
  rw [hmap]
  constructor
  · rintro ⟨t, ht⟩
    cases hI : dtypeIsInt64 ((G.nodes.map (fun p =>
        (p.1, (List.lookup "y" p.2).getD (AttrVal.num 0),
          (List.lookup "x" p.2).getD (AttrVal.num 0)))).map Prod.fst) with
    | true =>
      rw [hids] at hI
      exact hint.mp hI
    | false =>
      simp only [List.map_map] at hI
      simp [hI] at ht
  · rintro ⟨h1, h2⟩
    have hI := hint.mpr ⟨h1, h2⟩
    rw [← hids] at hI
    have hf1 := hfloat1 h1
    have hf2 := hfloat2 h1
    simp only [List.map_map] at hI hf1 hf2
    refine ⟨(G.nodes.map (fun p =>
        (p.1, (List.lookup "y" p.2).getD (AttrVal.num 0),
          (List.lookup "x" p.2).getD (AttrVal.num 0)))).map
        (fun t => (t.1, numValD t.2.1, numValD t.2.2)), ?_⟩
    simp [hI, hf1, hf2]

/-- Witness for the amended C9 at a concrete input: a one-node graph with the
integer key 1 and numeric coordinates satisfies the hypothesis, and the iff
instance holds (both sides true: the table construction succeeds). -/
theorem coord_table_int_keys_spec_witness :
    (∀ p ∈ (⟨[(.int 1, [("y", .num 1), ("x", .num 2)])], []⟩ : Graph).nodes,
        ∃ qy qx, List.lookup "y" p.2 = some (.num qy)
          ∧ List.lookup "x" p.2 = some (.num qx))
    ∧ ((∃ t, buildCoordTable ⟨[(.int 1, [("y", .num 1), ("x", .num 2)])], []⟩ = .ok t)
        ↔ ((⟨[(.int 1, [("y", .num 1), ("x", .num 2)])], []⟩ : Graph).nodes ≠ []
            ∧ ∀ p ∈ (⟨[(.int 1, [("y", .num 1), ("x", .num 2)])], []⟩ : Graph).nodes,
                p.1.isInt = true)) := by
  have hxy : ∀ p ∈ (⟨[(.int 1, [("y", .num 1), ("x", .num 2)])], []⟩ : Graph).nodes,
      ∃ qy qx, List.lookup "y" p.2 = some (.num qy)
        ∧ List.lookup "x" p.2 = some (.num qx) := by
    intro p hp
    have hpe : p = (.int 1, [("y", AttrVal.num 1), ("x", AttrVal.num 2)]) := by
      simpa using hp
    subst hpe
    exact ⟨1, 2, by decide, by decide⟩
  exact ⟨hxy, coord_table_int_keys_spec _ hxy⟩
